import Mathlib

/-!
Shallow embedding of the timeline/editing engine of the browser video editor
(`src/App.tsx`, `src/types.ts`): the data model (tracks, clips, groups, editor
state), the undo/redo history store, the timeline operations (add, update,
split, delete, group), the playback tick, the AI `apply_visual_effect` tool and
the dual-buffer preview assignment. Times and durations are modelled as
rationals; JavaScript string ids are modelled as naturals; `Date.now()`-derived
fresh ids are passed in as explicit parameters.
-/

namespace AiEditor

/-- `Clip.type` field of `src/types.ts`. -/
inductive ClipType
  | video | image | text | adjustment | audio
deriving DecidableEq, Repr

/-- `Track.type` field of `src/types.ts`. -/
inductive TrackType
  | video | text | adjustment | audio
deriving DecidableEq, Repr

/-- `MediaAsset.type` field of `src/types.ts`. -/
inductive AssetType
  | video | audio | image
deriving DecidableEq, Repr

/-- `Effect.type` field of `src/types.ts`. -/
inductive EffectType
  | brightness | contrast | saturate | blur | grayscale | sepia | invert
deriving DecidableEq, Repr

/-- `Effect` of `src/types.ts`. -/
structure Effect where
  type : EffectType
  value : ℚ
  enabled : Bool
  unit : String
  min : ℚ
  max : ℚ
  step : ℚ
deriving DecidableEq, Repr

/-- `Clip` of `src/types.ts` (the fields the engine operations read). -/
structure Clip where
  id : Nat
  name : String
  start : ℚ
  duration : ℚ
  type : ClipType
  assetId : Option Nat := none
  trimStart : Option ℚ := none
  effects : Option (List Effect) := none
  volume : Option ℚ := none
deriving DecidableEq, Repr

/-- `Track` of `src/types.ts`. The optional `isLocked`/`isVisible` booleans are
modelled as `Bool` (JavaScript `undefined` is falsy in every guard that reads
them). -/
structure Track where
  id : Nat
  name : String
  clips : List Clip
  type : TrackType
  isLocked : Bool := false
  isVisible : Bool := true
deriving DecidableEq, Repr

/-- `Group` of `src/types.ts`. -/
structure Group where
  id : Nat
  clipIds : List Nat
deriving DecidableEq, Repr

/-- `MediaAsset` of `src/types.ts` (the fields `handleAddClip` reads). -/
structure MediaAsset where
  id : Nat
  name : String
  duration : ℚ
  type : AssetType
deriving DecidableEq, Repr

/-- `EditorState` of `src/App.tsx` — the unit of history. -/
structure EditorState where
  tracks : List Track
  selectedClipIds : List Nat
  groups : List Group
deriving DecidableEq, Repr

/-! ## History store (`useHistory`, `src/App.tsx` lines 14–69)

The JavaScript index is a plain number that the code may drive below zero, so
it is modelled as `Int`, and `history[index]` as a guarded lookup. -/

/-- The `{history, index}` pair held by `useHistory`. -/
structure History (T : Type) where
  history : List T
  index : Int
deriving DecidableEq, Repr

/-- JavaScript array indexing `a[i]`: `undefined` (here `none`) for an
out-of-range or negative index. -/
def jsIndex {T : Type} (l : List T) (i : Int) : Option T :=
  if i < 0 then none else l[i.toNat]?

/-- `setState` of `useHistory`: computes the candidate state, compares it
structurally (`JSON.stringify`) with the current snapshot, and either keeps the
full state or truncates the redo tail, appends, and moves the index to the end.
The `none` case of the current-snapshot lookup cannot arise while the index is
in bounds. -/
def History.setState {T : Type} [DecidableEq T] (h : History T) (action : T → T) :
    History T :=
  match jsIndex h.history h.index with
  | none => h
  | some currentState =>
    let newState := action currentState
    if newState = currentState then h
    else
      let newHistory := h.history.take (h.index + 1).toNat ++ [newState]
      { history := newHistory, index := (newHistory.length : Int) - 1 }

/-- `undo` of `useHistory`: decrement the index while it is positive. -/
def History.undo {T : Type} (h : History T) : History T :=
  if 0 < h.index then { h with index := h.index - 1 } else h

/-- `redo` of `useHistory` as written in the source: under the
`index < history.length - 1` guard it assigns `index: currentFullState.index - 1`
— it decrements the index. -/
def History.redo {T : Type} (h : History T) : History T :=
  if h.index < (h.history.length : Int) - 1 then { h with index := h.index - 1 } else h

/-- `canUndo` of `useHistory`. -/
def History.canUndo {T : Type} (h : History T) : Bool := 0 < h.index

/-- `canRedo` of `useHistory`. -/
def History.canRedo {T : Type} (h : History T) : Bool :=
  h.index < (h.history.length : Int) - 1

/-- C1: the claim says `redo` moves `currentIndex` up by exactly 1 and that
`0 ≤ currentIndex < len(sequence)` always holds. The code's `redo` instead
decrements the index under the `canRedo` guard (an evident slip, mirroring
`undo`): on a two-snapshot history sitting at index 0 — reachable by one commit
followed by one undo — `redo` yields index `-1`, moving down and leaving the
invariant violated. -/
theorem redo_decrements_index_bug :
    (History.redo (⟨[0, 1], 0⟩ : History Nat)).index = -1 ∧
      ¬ (0 : Int) ≤ (History.redo (⟨[0, 1], 0⟩ : History Nat)).index ∧
      (History.redo (⟨[0, 1], 0⟩ : History Nat)).canRedo = true := by
  decide

/-- C4: committing a candidate structurally equal to the current snapshot keeps
the sequence, the index, `canUndo` and `canRedo` unchanged (no new entry);
committing a different candidate truncates everything beyond `currentIndex`,
appends the candidate, and puts the index at the last position. -/
theorem setState_commit_spec {T : Type} [DecidableEq T] (h : History T)
    (action : T → T) (cur : T) (hcur : jsIndex h.history h.index = some cur) :
    (action cur = cur →
      (h.setState action).history = h.history ∧
      (h.setState action).index = h.index ∧
      (h.setState action).canUndo = h.canUndo ∧
      (h.setState action).canRedo = h.canRedo) ∧
    (action cur ≠ cur →
      (h.setState action).history =
        h.history.take (h.index + 1).toNat ++ [action cur] ∧
      (h.setState action).index =
        ((h.history.take (h.index + 1).toNat ++ [action cur]).length : Int) - 1) := by
  constructor
  · intro heq
    simp only [History.setState, hcur, heq, if_pos rfl]
    exact ⟨rfl, rfl, rfl, rfl⟩
  · intro hne
    simp only [History.setState, hcur]
    rw [if_neg hne]
    exact ⟨rfl, rfl⟩

/-- Witness for C4 at a concrete input: a two-snapshot history at index 1;
committing the identity is a no-op, committing `+1` truncates nothing, appends
3, and moves the index to 2. -/
theorem setState_commit_spec_witness :
    jsIndex ([1, 2] : List Nat) 1 = some 2 ∧
    (((fun x => x + 1) (2 : Nat) = 2 →
      ((⟨[1, 2], 1⟩ : History Nat).setState (fun x => x + 1)).history = [1, 2] ∧
      ((⟨[1, 2], 1⟩ : History Nat).setState (fun x => x + 1)).index = 1 ∧
      ((⟨[1, 2], 1⟩ : History Nat).setState (fun x => x + 1)).canUndo =
        (⟨[1, 2], 1⟩ : History Nat).canUndo ∧
      ((⟨[1, 2], 1⟩ : History Nat).setState (fun x => x + 1)).canRedo =
        (⟨[1, 2], 1⟩ : History Nat).canRedo) ∧
    ((fun x => x + 1) (2 : Nat) ≠ 2 →
      ((⟨[1, 2], 1⟩ : History Nat).setState (fun x => x + 1)).history =
        ([1, 2] : List Nat).take ((1 : Int) + 1).toNat ++ [(fun x => x + 1) 2] ∧
      ((⟨[1, 2], 1⟩ : History Nat).setState (fun x => x + 1)).index =
        ((([1, 2] : List Nat).take ((1 : Int) + 1).toNat ++ [(fun x => x + 1) 2]).length : Int) - 1)) :=
  ⟨by decide, setState_commit_spec (⟨[1, 2], 1⟩ : History Nat) (fun x => x + 1) 2 (by decide)⟩

/-! ## Shared timeline helpers -/

/-- Insertion step of the stable sort by start: a clip is placed before the
first clip whose start is not smaller, so clips with equal starts keep their
original relative order. -/
def insertByStart (c : Clip) : List Clip → List Clip
  | [] => [c]
  | b :: bs => if decide (b.start < c.start) then b :: insertByStart c bs else c :: b :: bs

/-- `[...clips].sort((a, b) => a.start - b.start)` — the stable sort by start
used throughout the magnetic branches, modelled by stable insertion sort
(`Array.prototype.sort` is stable per the ECMAScript spec, and a stable sort's
output is uniquely determined by the key order). -/
def sortByStart : List Clip → List Clip
  | [] => []
  | c :: cs => insertByStart c (sortByStart cs)

/-- The repeated ripple idiom: lay the given clips out back to back starting at
`p`, keeping their order (`let updatedClip = { ...clip, start: lastEnd }` in a
running-accumulator loop). -/
def rippleFrom (p : ℚ) : List Clip → List Clip
  | [] => []
  | c :: cs => { c with start := p } :: rippleFrom (p + c.duration) cs

/-- `chainFromB p l`: the clips of `l`, in list order, sit back to back
starting exactly at `p` (so `clip[i+1].start = clip[i].start + clip[i].duration`
throughout, with the first clip at `p`). -/
def chainFromB : ℚ → List Clip → Bool
  | _, [] => true
  | p, c :: cs => decide (c.start = p) && chainFromB (c.start + c.duration) cs

/-- The spec's magnetic-contiguity test on a clip list:
`clip[i+1].start == clip[i].start + clip[i].duration` for consecutive clips. -/
def contiguousB : List Clip → Bool
  | [] => true
  | [_] => true
  | a :: b :: rest => decide (b.start = a.start + a.duration) && contiguousB (b :: rest)

/-! ## updateClip (`handleUpdateClip`, `src/App.tsx` lines 362–449) -/

/-- The partial-properties argument of `handleUpdateClip` (the fields the
engine branches inspect, plus representative merge-only fields). -/
structure ClipUpdate where
  start : Option ℚ := none
  duration : Option ℚ := none
  trimStart : Option ℚ := none
  name : Option String := none
  volume : Option ℚ := none
deriving DecidableEq, Repr

/-- The shallow merge `{ ...clip, ...newProps }`. -/
def mergeClip (c : Clip) (u : ClipUpdate) : Clip :=
  { c with
    start := u.start.getD c.start
    duration := u.duration.getD c.duration
    trimStart := match u.trimStart with | some v => some v | none => c.trimStart
    name := u.name.getD c.name
    volume := match u.volume with | some v => some v | none => c.volume }

/-- The per-member lookup inside the grouped-move branch: the first track whose
clips contain the id, together with that clip. -/
def findClipTrack (tracks : List Track) (cid : Nat) : Option (Clip × Nat) :=
  match tracks.find? (fun t => t.clips.any (fun c => c.id == cid)) with
  | some t => (t.clips.find? (fun c => c.id == cid)).map (fun c => (c, t.id))
  | none => none

/-- The clips of the first track with the given id (empty when absent). -/
def trackClipsById (tracks : List Track) (tid : Nat) : List Clip :=
  ((tracks.find? (fun t => t.id == tid)).map Track.clips).getD []

/-- `isMoveValid` of the grouped-move branch: every found member, shifted by
`delta`, stays non-negative and avoids overlap with every clip on its own track
that is not a group member. -/
def groupMoveValid (tracks : List Track) (memberIds : List Nat) (delta : ℚ) : Bool :=
  (memberIds.filterMap (findClipTrack tracks)).all fun gi =>
    let newStart := gi.1.start + delta
    let newEnd := newStart + gi.1.duration
    decide (0 ≤ newStart) &&
      ((trackClipsById tracks gi.2).filter (fun c => !memberIds.contains c.id)).all
        (fun oc => !(decide (newStart < oc.start + oc.duration) && decide (newEnd > oc.start)))

/-- The valid grouped move: every clip whose id is a member, on every track, is
shifted by `delta`. -/
def shiftGroupClips (tracks : List Track) (memberIds : List Nat) (delta : ℚ) :
    List Track :=
  tracks.map fun t =>
    { t with clips := t.clips.map fun c =>
        if memberIds.contains c.id then { c with start := c.start + delta } else c }

/-- The magnetic MOVE branch: drop the clip from the track, re-insert it with
its new start, re-sort, and re-flow the whole track contiguously from 0. -/
def magneticMove (clips : List Clip) (clipId : Nat) (originalClip : Clip)
    (u : ClipUpdate) : List Clip :=
  let clipWithNewStart := mergeClip originalClip u
  let otherClips := clips.filter (fun c => !(c.id == clipId))
  rippleFrom 0 (sortByStart (otherClips ++ [clipWithNewStart]))

/-- The magnetic RESIZE branch: sort the track by start, apply the update to
the edited clip, and ripple every later clip to follow its predecessor. -/
def magneticResize (clips : List Clip) (clipId : Nat) (u : ClipUpdate) : List Clip :=
  let clipsInOrder := sortByStart clips
  match clipsInOrder.findIdx? (fun c => c.id == clipId) with
  | none => clipsInOrder
  | some i =>
    match clipsInOrder[i]? with
    | none => clipsInOrder
    | some c0 =>
      let edited := mergeClip c0 u
      let updated := clipsInOrder.set i edited
      updated.take (i + 1) ++
        rippleFrom (edited.start + edited.duration) (updated.drop (i + 1))

/-- `handleUpdateClip`: grouped positional move first, then the magnetic
move/resize branches, then the default shallow merge. Unknown track or clip ids
return the state unchanged. -/
def updateClip (isMagnetic : Bool) (trackId clipId : Nat) (u : ClipUpdate)
    (s : EditorState) : EditorState :=
  match s.tracks.find? (fun t => t.id == trackId) with
  | none => s
  | some originalTrack =>
    match originalTrack.clips.find? (fun c => c.id == clipId) with
    | none => s
    | some originalClip =>
      let grouped :=
        match s.groups.find? (fun g => g.clipIds.contains clipId), u.start with
        | some group, some ns =>
          if originalClip.start = ns then none else some (group, ns)
        | _, _ => none
      match grouped with
      | some (group, ns) =>
        let delta := ns - originalClip.start
        if groupMoveValid s.tracks group.clipIds delta then
          { s with tracks := shiftGroupClips s.tracks group.clipIds delta }
        else s
      | none =>
        if isMagnetic && (u.start.isSome || u.duration.isSome) then
          match s.tracks.findIdx? (fun t => t.id == trackId) with
          | none => s
          | some trackIdx =>
            match s.tracks[trackIdx]? with
            | none => s
            | some trackToUpdate =>
              let isMove := u.start.isSome && u.duration.isNone
              let finalClips :=
                if isMove then magneticMove trackToUpdate.clips clipId originalClip u
                else magneticResize trackToUpdate.clips clipId u
              { s with tracks :=
                  s.tracks.set trackIdx { trackToUpdate with clips := finalClips } }
        else
          { s with tracks := s.tracks.map fun t =>
              if t.id == trackId then
                { t with clips := t.clips.map fun c =>
                    if c.id == clipId then mergeClip c u else c }
              else t }

/-! ## addClip (`handleAddClip`, `src/App.tsx` lines 697–789) -/

/-- Track type an asset requires (image/video → `video`, audio → `audio`). -/
def requiredTrackType : AssetType → TrackType
  | .image => .video
  | .video => .video
  | .audio => .audio

/-- Clip type created for an asset. -/
def clipTypeOfAsset : AssetType → ClipType
  | .image => .image
  | .video => .video
  | .audio => .audio

/-- The magnetic insertion-time rule: start from the requested start; if any
clip starts exactly there, move to `Math.max` of those clips' end times. -/
def insertionTimeFor (clips : List Clip) (s0 : ℚ) : ℚ :=
  match (clips.filter (fun c => decide (c.start = s0))).map (fun c => c.start + c.duration) with
  | [] => s0
  | e :: es => es.foldl max e

/-- The magnetic placement of `handleAddClip`: clips ending at or before the
insertion time stay; the new clip lands at the insertion time; every other
clip, sorted by start, ripples to follow it back to back. -/
def magneticInsertClips (clips : List Clip) (newClip : Clip) : List Clip :=
  let ins := insertionTimeFor clips newClip.start
  let unaffected := clips.filter (fun c => decide (c.start + c.duration ≤ ins))
  let affected :=
    sortByStart (clips.filter (fun c => !(unaffected.any (fun u => u.id == c.id))))
  unaffected ++ { newClip with start := ins } :: rippleFrom (ins + newClip.duration) affected

/-- The non-magnetic placement of `handleAddClip`: on any collision, restart
after the clip with the greatest start (`reduce` seeded with start `-1`). -/
def nonMagneticPlace (clips : List Clip) (newClip : Clip) : Clip :=
  let newClipEnd := newClip.start + newClip.duration
  let collision := clips.any fun ex =>
    decide (newClip.start < ex.start + ex.duration) && decide (newClipEnd > ex.start)
  if collision then
    let lastClip := clips.foldl
      (fun last cur => if decide (last.1 < cur.start) then (cur.start, cur.duration) else last)
      ((-1 : ℚ), (0 : ℚ))
    { newClip with start := if decide (0 ≤ lastClip.1) then lastClip.1 + lastClip.2 else 0 }
  else newClip

/-- `handleAddClip`: resolve the target track (explicit id, first unlocked
matching track, or a synthesized one appended at the end), reject a type
mismatch, build the clip at `max(0, startTime)` with
`durationOverride || asset.duration`, and place it magnetically or not.
`newClipId`/`newTrackId` stand for the `Date.now()` ids. -/
def addClip (isMagnetic : Bool) (trackId? : Option Nat) (asset : MediaAsset)
    (startTime : ℚ) (durationOverride : Option ℚ) (newClipId newTrackId : Nat)
    (s : EditorState) : EditorState :=
  let targetTrackType := requiredTrackType asset.type
  let clipType := clipTypeOfAsset asset.type
  let resolved : List Track × Nat :=
    match trackId? with
    | some tid => (s.tracks, tid)
    | none =>
      match s.tracks.find? (fun t => t.type == targetTrackType && !t.isLocked) with
      | some t => (s.tracks, t.id)
      | none =>
        let newTrack : Track :=
          { id := newTrackId, name := "", clips := [], type := targetTrackType,
            isLocked := false, isVisible := true }
        (s.tracks ++ [newTrack], newTrackId)
  let mutableTracks := resolved.1
  let finalTrackId := resolved.2
  match mutableTracks.findIdx? (fun t => t.id == finalTrackId) with
  | none => s
  | some targetTrackIndex =>
    match mutableTracks[targetTrackIndex]? with
    | none => s
    | some targetTrack =>
      if !(targetTrack.type == targetTrackType) then s
      else
        let newClip : Clip :=
          { id := newClipId, name := asset.name,
            start := max 0 startTime,
            duration :=
              match durationOverride with
              | some d => if d = 0 then asset.duration else d
              | none => asset.duration,
            type := clipType, assetId := some asset.id, trimStart := some 0,
            volume := if clipType = .audio ∨ clipType = .video then some 100 else none }
        let finalClips :=
          if isMagnetic then magneticInsertClips targetTrack.clips newClip
          else targetTrack.clips ++ [nonMagneticPlace targetTrack.clips newClip]
        { s with
            tracks := mutableTracks.set targetTrackIndex
              { targetTrack with clips := finalClips },
            selectedClipIds := [newClipId] }

/-! ## splitClip (`handleSplitClip`, `src/App.tsx` lines 826–876) -/

/-- `time > clip.start && time < clip.start + clip.duration`. -/
def strictlyContainsB (c : Clip) (t : ℚ) : Bool :=
  decide (c.start < t) && decide (t < c.start + c.duration)

/-- The selected-clip branch of the split-target search: a single selected
clip, found on whichever track holds it (the branch never checks `isLocked`),
taken when the time is strictly inside it. -/
def selectedSplitTarget (s : EditorState) (time : ℚ) : Option (Nat × Clip) :=
  match s.selectedClipIds with
  | [cid] =>
    match s.tracks.find? (fun t => t.clips.any (fun c => c.id == cid)) with
    | some tr =>
      match tr.clips.find? (fun c => c.id == cid) with
      | some c => if strictlyContainsB c time then some (tr.id, c) else none
      | none => none
    | none => none
  | _ => none

/-- The fallback scan: first clip, in track then clip order, strictly
containing the time, skipping locked tracks. -/
def scanSplitTarget : List Track → ℚ → Option (Nat × Clip)
  | [], _ => none
  | tr :: rest, time =>
    if tr.isLocked then scanSplitTarget rest time
    else
      match tr.clips.find? (fun c => strictlyContainsB c time) with
      | some c => some (tr.id, c)
      | none => scanSplitTarget rest time

/-- The split-target priority of `handleSplitClip`. -/
def findClipToSplit (s : EditorState) (time : ℚ) : Option (Nat × Clip) :=
  match selectedSplitTarget s time with
  | some r => some r
  | none => scanSplitTarget s.tracks time

/-- `handleSplitClip`: no-op when no target qualifies; otherwise splice the
two halves in place of the target and select the first half. `newId` stands
for the `Date.now()` id of the second half. -/
def splitClip (time : ℚ) (newId : Nat) (s : EditorState) : EditorState :=
  match findClipToSplit s time with
  | none => s
  | some (trId, clip) =>
    let splitPoint := time - clip.start
    let clip1 : Clip := { clip with duration := splitPoint }
    let clip2 : Clip :=
      { clip with
        id := newId, start := time, duration := clip.duration - splitPoint,
        trimStart := some (clip.trimStart.getD 0 + splitPoint) }
    let newTracks := s.tracks.map fun tr =>
      if tr.id == trId then
        match tr.clips.findIdx? (fun c => c.id == clip.id) with
        | none => tr
        | some i =>
          { tr with clips := tr.clips.take i ++ clip1 :: clip2 :: tr.clips.drop (i + 1) }
      else tr
    { s with tracks := newTracks, selectedClipIds := [clip1.id] }

/-! ## Deletion (`handleDeleteSelectedClip` lines 651–695,
`handleDeleteMediaAsset` lines 575–595) -/

/-- The ids of the tracks that hold at least one selected clip (the keys of
`deletedClipsByTrack`). -/
def deletedTrackIdsOf (s : EditorState) : List Nat :=
  s.selectedClipIds.filterMap fun cid =>
    (s.tracks.find? (fun t => t.clips.any (fun c => c.id == cid))).map (fun t => t.id)

/-- `handleDeleteSelectedClip`: drop every selected clip from every track; with
the magnetic flag, re-sort and re-pack each affected track contiguously from 0;
prune the selected ids from every group and drop groups left with fewer than 2
members; clear the selection. -/
def deleteSelectedClips (isMagnetic : Bool) (s : EditorState) : EditorState :=
  if s.selectedClipIds.isEmpty then s
  else
    let deletedTrackIds := deletedTrackIdsOf s
    let newTracks0 := s.tracks.map fun t =>
      { t with clips := t.clips.filter (fun c => !s.selectedClipIds.contains c.id) }
    let newTracks :=
      if isMagnetic then
        newTracks0.map fun t =>
          if deletedTrackIds.contains t.id then
            { t with clips :=
                rippleFrom 0 (sortByStart
                  (t.clips.filter (fun c => !s.selectedClipIds.contains c.id))) }
          else t
      else newTracks0
    let newGroups :=
      (s.groups.map fun g =>
        { g with clipIds := g.clipIds.filter (fun cid => !s.selectedClipIds.contains cid) }).filter
        (fun g => 1 < g.clipIds.length)
    { tracks := newTracks, selectedClipIds := [], groups := newGroups }

/-- `handleDeleteMediaAsset` restricted to its editor-state effect (its two
successive commits composed): remove every clip referencing the asset and clear
the selection. The groups array is left untouched by the source. -/
def deleteMediaAssetClips (assetId : Nat) (s : EditorState) : EditorState :=
  { s with
    tracks := s.tracks.map fun t =>
      { t with clips := t.clips.filter (fun c => !(c.assetId == some assetId)) },
    selectedClipIds := [] }

/-- `handleGroupClips`: with at least 2 selected clips, strip the selected ids
from every existing group (dropping groups under 2 members) and append a new
group of the selection. -/
def groupClips (newGroupId : Nat) (s : EditorState) : EditorState :=
  if s.selectedClipIds.length < 2 then s
  else
    let remainingGroups :=
      (s.groups.map fun g =>
        { g with clipIds := g.clipIds.filter (fun cid => !s.selectedClipIds.contains cid) }).filter
        (fun g => 1 < g.clipIds.length)
    { s with groups := remainingGroups ++ [{ id := newGroupId, clipIds := s.selectedClipIds }] }

/-! ## Playback tick (`animate`, `src/App.tsx` lines 1708–1749) -/

/-- The `{currentTime, isPlaying}` slice the per-frame callback updates. -/
structure PlaybackState where
  currentTime : ℚ
  isPlaying : Bool
deriving DecidableEq, Repr

/-- One `animate` step: advance by `delta * playbackRate`; at or past
`timelineDuration` clamp there and stop; at or past `0` clamp to 0 and stop. -/
def playbackTick (timelineDuration playbackRate delta : ℚ) (p : PlaybackState) :
    PlaybackState :=
  let newTime := p.currentTime + delta * playbackRate
  if timelineDuration ≤ newTime then { currentTime := timelineDuration, isPlaying := false }
  else if newTime ≤ 0 then { currentTime := 0, isPlaying := false }
  else { p with currentTime := newTime }

/-! ## apply_visual_effect (`executeAiTool`, `src/App.tsx` lines 1354–1380, and
`handleAddAdjustmentClip`, lines 482–502) -/

/-- The 7-slot `defaultEffects` stack of the `apply_visual_effect` tool. -/
def defaultEffects : List Effect :=
  [ { type := .brightness, value := 100, enabled := true, unit := "%", min := 0, max := 200, step := 1 },
    { type := .contrast, value := 100, enabled := true, unit := "%", min := 0, max := 200, step := 1 },
    { type := .saturate, value := 100, enabled := true, unit := "%", min := 0, max := 200, step := 1 },
    { type := .blur, value := 0, enabled := true, unit := "px", min := 0, max := 20, step := 1/10 },
    { type := .grayscale, value := 0, enabled := false, unit := "%", min := 0, max := 100, step := 1 },
    { type := .sepia, value := 0, enabled := false, unit := "%", min := 0, max := 100, step := 1 },
    { type := .invert, value := 0, enabled := false, unit := "%", min := 0, max := 100, step := 1 } ]

/-- `finalEffects`: override the named slot with the given value and enable it;
for grayscale additionally enable saturate at 0; keep every other slot. -/
def finalEffectsFor (name : EffectType) (value : ℚ) : List Effect :=
  defaultEffects.map fun e =>
    if e.type == name then { e with value := value, enabled := true }
    else if name == .grayscale && e.type == .saturate then { e with value := 0, enabled := true }
    else e

/-- `handleAddAdjustmentClip`: append a fresh adjustment clip to the first
adjustment track, creating one at the front when none exists; select it. -/
def addAdjustmentClip (startTime duration : ℚ) (effects : List Effect)
    (newClipId newTrackId : Nat) (s : EditorState) : EditorState :=
  let newClip : Clip :=
    { id := newClipId, name := "AI Adjustment", start := startTime,
      duration := duration, type := .adjustment, effects := some effects }
  match s.tracks.findIdx? (fun t => t.type == TrackType.adjustment) with
  | some i =>
    match s.tracks[i]? with
    | some tr =>
      { s with
        tracks := s.tracks.set i { tr with clips := tr.clips ++ [newClip] },
        selectedClipIds := [newClip.id] }
    | none => s
  | none =>
    let newTrack : Track :=
      { id := newTrackId, name := "Adjustment Layer", clips := [newClip],
        type := .adjustment, isLocked := false, isVisible := true }
    { s with tracks := newTrack :: s.tracks, selectedClipIds := [newClip.id] }

/-- The `apply_visual_effect` tool body: look up the template (always present
for the seven typed effect names) and add the adjustment clip carrying the
overridden stack. -/
def applyVisualEffect (name : EffectType) (value startTime duration : ℚ)
    (newClipId newTrackId : Nat) (s : EditorState) : EditorState :=
  match defaultEffects.find? (fun e => e.type == name) with
  | none => s
  | some _ =>
    addAdjustmentClip startTime duration (finalEffectsFor name value) newClipId newTrackId s

/-! ## Dual-buffer preview (`currentVisualClip` lines 1693–1706,
`nextVisualClip` lines 1783–1800, assignment effect lines 1802–1814) -/

/-- Whether a clip is the visible visual content at time `t`:
video/image type and `start ≤ t < start + duration`. -/
def visualActiveAt (c : Clip) (t : ℚ) : Bool :=
  (c.type == ClipType.video || c.type == ClipType.image) &&
    decide (c.start ≤ t) && decide (t < c.start + c.duration)

/-- `currentVisualClip`: scan tracks top to bottom; on each visible video
track, the first clip (list order) active at `t` wins. -/
def currentVisualClip : List Track → ℚ → Option Clip
  | [], _ => none
  | tr :: rest, t =>
    if tr.type == TrackType.video && tr.isVisible then
      match tr.clips.find? (fun c => visualActiveAt c t) with
      | some c => some c
      | none => currentVisualClip rest t
    else currentVisualClip rest t

/-- `nextVisualClip`: none without a current clip; otherwise the
earliest-starting video/image clip on any visible video track starting at or
after the current clip's end (first found wins ties). -/
def nextVisualClip (tracks : List Track) (t : ℚ) : Option Clip :=
  match currentVisualClip tracks t with
  | none => none
  | some cur =>
    let cend := cur.start + cur.duration
    tracks.foldl
      (fun best tr =>
        if tr.type == TrackType.video && tr.isVisible then
          tr.clips.foldl
            (fun b c =>
              if (c.type == ClipType.video || c.type == ClipType.image) &&
                  decide (cend ≤ c.start) then
                match b with
                | none => some c
                | some bc => if decide (c.start < bc.start) then some c else some bc
              else b)
            best
        else best)
      none

/-- The two preview surfaces. -/
inductive Player
  | A | B
deriving DecidableEq, Repr

/-- `playerAssignments`: which clip id each surface holds. -/
structure PlayerAssignments where
  A : Option Nat
  B : Option Nat
deriving DecidableEq, Repr

/-- The slot a player designates. -/
def assignedTo (asg : PlayerAssignments) : Player → Option Nat
  | .A => asg.A
  | .B => asg.B

/-- The other surface. -/
def otherPlayer : Player → Player
  | .A => .B
  | .B => .A

/-- The assignment effect: when a current clip exists and surface B already
holds it, B becomes active and A preloads the next clip; otherwise A becomes
active with the current clip and B preloads the next. Returns the new
assignments and the new active player. -/
def updatePlayerAssignments (prevAsg : PlayerAssignments) (cur next : Option Nat) :
    PlayerAssignments × Player :=
  match cur with
  | some cid =>
    if prevAsg.B == some cid then ({ A := next, B := some cid }, Player.B)
    else ({ A := cur, B := next }, Player.A)
  | none => ({ A := cur, B := next }, Player.A)

/-! ## Helper lemmas -/

theorem mem_insertByStart (c x : Clip) (l : List Clip) :
    x ∈ insertByStart c l ↔ x = c ∨ x ∈ l := by
  induction l with
  | nil => simp [insertByStart]
  | cons b bs ih =>
    simp only [insertByStart]
    split_ifs with h
    · simp only [List.mem_cons, ih]
      try tauto
    · simp only [List.mem_cons]
      try tauto

theorem mem_sortByStart (x : Clip) (l : List Clip) :
    x ∈ sortByStart l ↔ x ∈ l := by
  induction l with
  | nil => simp [sortByStart]
  | cons c cs ih => simp [sortByStart, mem_insertByStart, ih]

theorem chainFromB_rippleFrom (l : List Clip) : ∀ (p : ℚ),
    chainFromB p (rippleFrom p l) = true := by
  induction l with
  | nil => intro p; rfl
  | cons c cs ih =>
    intro p
    simp [rippleFrom, chainFromB, ih]

theorem contiguousB_of_chainFromB (l : List Clip) : ∀ (p : ℚ),
    chainFromB p l = true → contiguousB l = true := by
  induction l with
  | nil => intro p _; rfl
  | cons c cs ih =>
    intro p h
    cases cs with
    | nil => rfl
    | cons b rest =>
      simp only [chainFromB, Bool.and_eq_true, decide_eq_true_eq] at h
      obtain ⟨h1, h2, h3⟩ := h
      simp only [contiguousB, Bool.and_eq_true, decide_eq_true_eq]
      refine ⟨h2, ih (c.start + c.duration) ?_⟩
      simp only [chainFromB, Bool.and_eq_true, decide_eq_true_eq]
      exact ⟨h2, h3⟩

theorem exists_id_mem_rippleFrom (l : List Clip) (c : Clip) : ∀ (p : ℚ), c ∈ l →
    ∃ c' ∈ rippleFrom p l, c'.id = c.id := by
  induction l with
  | nil => intro p hc; cases hc
  | cons a as ih =>
    intro p hc
    simp only [rippleFrom]
    rcases List.mem_cons.mp hc with rfl | hmem
    · exact ⟨{ c with start := p }, List.mem_cons_self _ _, rfl⟩
    · obtain ⟨c', hc', hid⟩ := ih (p + a.duration) hmem
      exact ⟨c', List.mem_cons_of_mem _ hc', hid⟩

theorem list_find?_append_cons {α : Type} (p : α → Bool) (pre : List α) (x : α)
    (post : List α) (hpre : ∀ a ∈ pre, p a = false) (hx : p x = true) :
    (pre ++ x :: post).find? p = some x := by
  induction pre with
  | nil => simp [List.find?, hx]
  | cons a as ih =>
    have ha := hpre a (List.mem_cons_self _ _)
    simp only [List.cons_append, List.find?, ha]
    exact ih (fun b hb => hpre b (List.mem_cons_of_mem _ hb))

theorem list_findIdx?_append_cons {α : Type} (p : α → Bool) (pre : List α) (x : α)
    (post : List α) (hpre : ∀ a ∈ pre, p a = false) (hx : p x = true) :
    (pre ++ x :: post).findIdx? p = some pre.length := by
  induction pre with
  | nil => simp [List.findIdx?_cons, hx]
  | cons a as ih =>
    have ha := hpre a (List.mem_cons_self _ _)
    simp only [List.cons_append, List.findIdx?_cons, ha, Bool.false_eq_true, if_false,
      List.findIdx?_succ]
    rw [ih (fun b hb => hpre b (List.mem_cons_of_mem _ hb))]
    simp [List.length_cons]

theorem list_getElem?_append_cons {α : Type} (pre : List α) (x : α) (post : List α) :
    (pre ++ x :: post)[pre.length]? = some x := by
  induction pre with
  | nil => simp
  | cons a as ih => simpa using ih

theorem list_set_append_cons {α : Type} (pre : List α) (x y : α) (post : List α) :
    (pre ++ x :: post).set pre.length y = pre ++ y :: post := by
  induction pre with
  | nil => rfl
  | cons a as ih => simp [List.set, ih]

theorem list_take_append_cons {α : Type} (pre : List α) (x : α) (post : List α) :
    (pre ++ x :: post).take pre.length = pre := by
  induction pre with
  | nil => rfl
  | cons a as ih => simp [List.take, ih]

theorem list_drop_append_cons {α : Type} (pre : List α) (x : α) (post : List α) :
    (pre ++ x :: post).drop (pre.length + 1) = post := by
  induction pre with
  | nil => rfl
  | cons a as ih => simpa using ih

theorem list_findIdx?_some_getElem? {α : Type} (p : α → Bool) (l : List α) (i : Nat)
    (h : l.findIdx? p = some i) : ∃ x, l[i]? = some x ∧ p x = true := by
  induction l generalizing i with
  | nil => simp at h
  | cons a as ih =>
    rw [List.findIdx?_cons] at h
    by_cases hp : p a
    · rw [if_pos hp] at h
      injection h with h
      exact ⟨a, by simp [← h], hp⟩
    · rw [if_neg hp, List.findIdx?_succ] at h
      simp only [Option.map_eq_some'] at h
      obtain ⟨j, hj, rfl⟩ := h
      obtain ⟨x, hx, hpx⟩ := ih j hj
      exact ⟨x, by simpa using hx, hpx⟩

theorem list_mem_set_self {α : Type} (l : List α) (i : Nat) (x : α)
    (h : i < l.length) : x ∈ l.set i x := by
  induction l generalizing i with
  | nil => simp at h
  | cons a as ih =>
    cases i with
    | zero => simp [List.set]
    | succ j =>
      simp only [List.set]
      exact List.mem_cons_of_mem _ (ih j (by simpa using h))

theorem list_take_set_succ {α : Type} (l : List α) (i : Nat) (x : α)
    (h : i < l.length) : (l.set i x).take (i + 1) = l.take i ++ [x] := by
  induction l generalizing i with
  | nil => simp at h
  | cons a as ih =>
    cases i with
    | zero => simp [List.set]
    | succ j =>
      simp only [List.set, List.take]
      rw [ih j (by simpa using h)]
      rfl

theorem list_take_set_same {α : Type} (l : List α) (i : Nat) (x : α) :
    (l.set i x).take i = l.take i := by
  induction l generalizing i with
  | nil => rfl
  | cons a as ih =>
    cases i with
    | zero => rfl
    | succ j => simp only [List.set, List.take]; rw [ih]

/-! ## C7: totality / no-op semantics of invalid targets -/

/-- C7: the engine operations are total functions on editor state; an invalid
target is a logical no-op. `updateClip` on an unknown track id, or an unknown
clip id within a known track, returns the state unchanged; `addClip` onto a
named track whose type mismatches the asset's required track type returns the
state unchanged; `splitClip` with no qualifying clip returns the state
unchanged. -/
theorem engine_ops_total_noop :
    (∀ (mag : Bool) (trackId clipId : Nat) (u : ClipUpdate) (s : EditorState),
      s.tracks.find? (fun t => t.id == trackId) = none →
      updateClip mag trackId clipId u s = s) ∧
    (∀ (mag : Bool) (trackId clipId : Nat) (u : ClipUpdate) (s : EditorState)
      (tr : Track),
      s.tracks.find? (fun t => t.id == trackId) = some tr →
      tr.clips.find? (fun c => c.id == clipId) = none →
      updateClip mag trackId clipId u s = s) ∧
    (∀ (mag : Bool) (trackId : Nat) (asset : MediaAsset) (startTime : ℚ)
      (dOv : Option ℚ) (ncid ntid : Nat) (s : EditorState) (i : Nat) (tr : Track),
      s.tracks.findIdx? (fun t => t.id == trackId) = some i →
      s.tracks[i]? = some tr →
      tr.type ≠ requiredTrackType asset.type →
      addClip mag (some trackId) asset startTime dOv ncid ntid s = s) ∧
    (∀ (time : ℚ) (nid : Nat) (s : EditorState),
      findClipToSplit s time = none →
      splitClip time nid s = s) := by
  refine ⟨?_, ?_, ?_, ?_⟩
  · intro mag trackId clipId u s h
    simp only [updateClip, h]
  · intro mag trackId clipId u s tr h1 h2
    simp only [updateClip, h1, h2]
  · intro mag trackId asset startTime dOv ncid ntid s i tr h1 h2 h3
    have hb : (tr.type == requiredTrackType asset.type) = false :=
      beq_eq_false_iff_ne.mpr h3
    simp only [addClip, h1, h2, hb, Bool.not_false, if_pos]
  · intro time nid s h
    simp only [splitClip, h]

unseal Rat.add in
/-- Witness for C7: a one-track state; an update aimed at an absent track, an
update aimed at an absent clip, an audio-asset add aimed at the video track,
and a split at a time outside every clip all leave the state unchanged. -/
theorem engine_ops_total_noop_witness :
    (let s : EditorState :=
      { tracks := [{ id := 1, name := "v",
                     clips := [{ id := 1, name := "c", start := 0, duration := 2,
                                 type := ClipType.video }],
                     type := TrackType.video }],
        selectedClipIds := [], groups := [] }
     updateClip true 2 1 { start := some 1 } s = s ∧
     updateClip true 1 99 { start := some 1 } s = s ∧
     addClip true (some 1) { id := 9, name := "m", duration := 3, type := AssetType.audio }
       0 none 50 51 s = s ∧
     splitClip 100 50 s = s) := by
  refine ⟨?_, ?_, ?_, ?_⟩
  · exact engine_ops_total_noop.1 true 2 1 { start := some 1 } _ (by decide)
  · exact engine_ops_total_noop.2.1 true 1 99 { start := some 1 } _
      { id := 1, name := "v",
        clips := [{ id := 1, name := "c", start := 0, duration := 2,
                    type := ClipType.video }],
        type := TrackType.video } (by decide) (by decide)
  · exact engine_ops_total_noop.2.2.1 true 1
      { id := 9, name := "m", duration := 3, type := AssetType.audio } 0 none 50 51 _ 0
      { id := 1, name := "v",
        clips := [{ id := 1, name := "c", start := 0, duration := 2,
                    type := ClipType.video }],
        type := TrackType.video } (by decide) (by decide) (by decide)
  · exact engine_ops_total_noop.2.2.2 100 50 _ (by decide)

/-! ## C8: playback tick clamping -/

/-- C8: one playback tick from a time inside `[0, timelineDuration]` stays in
`[0, timelineDuration]`; an advance reaching or passing `timelineDuration`
lands exactly on it and stops playback, and an advance reaching or passing `0`
lands exactly on `0` and stops playback (no wraparound). -/
theorem playbackTick_clamps (dur rate delta : ℚ) (p : PlaybackState)
    (hdur : 0 ≤ dur) (h0 : 0 ≤ p.currentTime) (h1 : p.currentTime ≤ dur) :
    (0 ≤ (playbackTick dur rate delta p).currentTime ∧
      (playbackTick dur rate delta p).currentTime ≤ dur) ∧
    (dur ≤ p.currentTime + delta * rate →
      (playbackTick dur rate delta p).currentTime = dur ∧
      (playbackTick dur rate delta p).isPlaying = false) ∧
    (p.currentTime + delta * rate ≤ 0 →
      (playbackTick dur rate delta p).currentTime = 0 ∧
      (playbackTick dur rate delta p).isPlaying = false) := by
  simp only [playbackTick]
  split_ifs with hA hB
  · refine ⟨⟨hdur, le_refl _⟩, fun _ => ⟨rfl, rfl⟩, fun hz => ⟨?_, rfl⟩⟩
    exact le_antisymm (by linarith) hdur
  · exact ⟨⟨le_refl _, hdur⟩, fun hd => absurd (by linarith : dur ≤ p.currentTime + delta * rate) hA,
      fun _ => ⟨rfl, rfl⟩⟩
  · push_neg at hA hB
    exact ⟨⟨le_of_lt hB, le_of_lt hA⟩, fun hd => absurd hd (not_le.mpr hA),
      fun hz => absurd hz (not_le.mpr hB)⟩

/-- Witness for C8: duration 10, rate 1, a 20-second frame from time 5 clamps
to 10 and stops. -/
theorem playbackTick_clamps_witness :
    ((0 : ℚ) ≤ 10 ∧ (0 : ℚ) ≤ 5 ∧ (5 : ℚ) ≤ 10) ∧
    ((0 ≤ (playbackTick 10 1 20 ⟨5, true⟩).currentTime ∧
      (playbackTick 10 1 20 ⟨5, true⟩).currentTime ≤ 10) ∧
    ((10 : ℚ) ≤ 5 + 20 * 1 →
      (playbackTick 10 1 20 ⟨5, true⟩).currentTime = 10 ∧
      (playbackTick 10 1 20 ⟨5, true⟩).isPlaying = false) ∧
    ((5 : ℚ) + 20 * 1 ≤ 0 →
      (playbackTick 10 1 20 ⟨5, true⟩).currentTime = 0 ∧
      (playbackTick 10 1 20 ⟨5, true⟩).isPlaying = false)) :=
  ⟨⟨by norm_num, by norm_num, by norm_num⟩,
    playbackTick_clamps 10 1 20 ⟨5, true⟩ (by norm_num) (by norm_num) (by norm_num)⟩

/-! ## C10: dual-buffer assignment -/

/-- C10: after the assignment update, the active player holds the current
visual clip's id (or none) and the standby player holds the next visual clip's
id (or none); player B is made active exactly when a current clip exists whose
id B already held, and otherwise player A is made active with the current
clip. -/
theorem dualBuffer_assignment_spec (prevAsg : PlayerAssignments)
    (tracks : List Track) (t : ℚ) :
    assignedTo (updatePlayerAssignments prevAsg
        ((currentVisualClip tracks t).map Clip.id)
        ((nextVisualClip tracks t).map Clip.id)).1
      (updatePlayerAssignments prevAsg ((currentVisualClip tracks t).map Clip.id)
        ((nextVisualClip tracks t).map Clip.id)).2 =
      (currentVisualClip tracks t).map Clip.id ∧
    assignedTo (updatePlayerAssignments prevAsg
        ((currentVisualClip tracks t).map Clip.id)
        ((nextVisualClip tracks t).map Clip.id)).1
      (otherPlayer (updatePlayerAssignments prevAsg
        ((currentVisualClip tracks t).map Clip.id)
        ((nextVisualClip tracks t).map Clip.id)).2) =
      (nextVisualClip tracks t).map Clip.id ∧
    ((updatePlayerAssignments prevAsg ((currentVisualClip tracks t).map Clip.id)
        ((nextVisualClip tracks t).map Clip.id)).2 = Player.B ↔
      ∃ cid, (currentVisualClip tracks t).map Clip.id = some cid ∧
        prevAsg.B = some cid) := by
  cases hc : (currentVisualClip tracks t).map Clip.id with
  | none =>
    simp [updatePlayerAssignments, assignedTo, otherPlayer]
  | some cid =>
    by_cases hB : prevAsg.B = some cid
    · simp [updatePlayerAssignments, hB, assignedTo, otherPlayer]
    · have hB' : (prevAsg.B == some cid) = false := beq_eq_false_iff_ne.mpr hB
      simp only [updatePlayerAssignments, hB', Bool.false_eq_true, if_false]
      refine ⟨rfl, rfl, ?_⟩
      constructor
      · intro h; cases h
      · rintro ⟨cid', hcid', hBcid'⟩
        injection hcid' with h
        exact absurd (hBcid'.trans (congrArg some h.symm)) hB

/-! ## C9: apply_visual_effect -/

theorem applyVisualEffect_eq_addAdjustment (name : EffectType) (v st d : ℚ)
    (ncid ntid : Nat) (s : EditorState) :
    applyVisualEffect name v st d ncid ntid s =
      addAdjustmentClip st d (finalEffectsFor name v) ncid ntid s := by
  cases name <;> rfl

/-- C9: `apply_visual_effect` with any of the seven effect names creates a new
adjustment clip over `[start_time, start_time + duration)` on an adjustment
track, carrying exactly the 7-slot stack in which the named slot is enabled
and overridden to the given value, the saturate slot is additionally enabled at
0 when the named effect is grayscale, and every other slot is one of the
default slots (default value and enabled flag). -/
theorem applyVisualEffect_spec (name : EffectType) (v st d : ℚ)
    (ncid ntid : Nat) (s : EditorState) :
    ∃ tr ∈ (applyVisualEffect name v st d ncid ntid s).tracks,
      tr.type = TrackType.adjustment ∧
      ∃ c ∈ tr.clips, c.id = ncid ∧ c.type = ClipType.adjustment ∧
        c.start = st ∧ c.duration = d ∧
        c.effects = some (finalEffectsFor name v) ∧
        (finalEffectsFor name v).map Effect.type =
          [EffectType.brightness, EffectType.contrast, EffectType.saturate,
           EffectType.blur, EffectType.grayscale, EffectType.sepia, EffectType.invert] ∧
        ∀ e ∈ finalEffectsFor name v,
          (e.type = name → e.enabled = true ∧ e.value = v) ∧
          (name = EffectType.grayscale → e.type = EffectType.saturate →
            e.enabled = true ∧ e.value = 0) ∧
          (e.type ≠ name → ¬(name = EffectType.grayscale ∧ e.type = EffectType.saturate) →
            e ∈ defaultEffects) := by
  rw [applyVisualEffect_eq_addAdjustment]
  have hslots : (finalEffectsFor name v).map Effect.type =
      [EffectType.brightness, EffectType.contrast, EffectType.saturate,
       EffectType.blur, EffectType.grayscale, EffectType.sepia, EffectType.invert] := by
    cases name <;> rfl
  have hprops : ∀ e ∈ finalEffectsFor name v,
      (e.type = name → e.enabled = true ∧ e.value = v) ∧
      (name = EffectType.grayscale → e.type = EffectType.saturate →
        e.enabled = true ∧ e.value = 0) ∧
      (e.type ≠ name → ¬(name = EffectType.grayscale ∧ e.type = EffectType.saturate) →
        e ∈ defaultEffects) := by
    cases name <;>
      (intro e he
       simp only [finalEffectsFor, defaultEffects, List.map_cons, List.map_nil,
         List.mem_cons, List.not_mem_nil, or_false] at he <;>
       rcases he with rfl | rfl | rfl | rfl | rfl | rfl | rfl <;>
       exact ⟨by simp, by simp, by simp [defaultEffects]⟩)
  set newClip : Clip :=
    { id := ncid, name := "AI Adjustment", start := st,
      duration := d, type := .adjustment, effects := some (finalEffectsFor name v) }
    with hnewClip
  have hclip : newClip.id = ncid ∧ newClip.type = ClipType.adjustment ∧
      newClip.start = st ∧ newClip.duration = d ∧
      newClip.effects = some (finalEffectsFor name v) :=
    ⟨rfl, rfl, rfl, rfl, rfl⟩
  cases hidx : s.tracks.findIdx? (fun t => t.type == TrackType.adjustment) with
  | none =>
    refine ⟨{ id := ntid, name := "Adjustment Layer", clips := [newClip],
              type := .adjustment, isLocked := false, isVisible := true }, ?_, rfl, newClip,
            List.mem_singleton_self _, hclip.1, hclip.2.1, hclip.2.2.1, hclip.2.2.2.1,
            hclip.2.2.2.2, hslots, hprops⟩
    simp only [addAdjustmentClip, hidx]
    exact List.mem_cons_self _ _
  | some i =>
    obtain ⟨tr0, hget, hp⟩ := list_findIdx?_some_getElem? _ _ _ hidx
    have hlt : i < s.tracks.length := by
      rcases List.getElem?_eq_some_iff.mp hget with ⟨h, _⟩
      exact h
    refine ⟨{ tr0 with clips := tr0.clips ++ [newClip] }, ?_, ?_, newClip, ?_,
            hclip.1, hclip.2.1, hclip.2.2.1, hclip.2.2.2.1, hclip.2.2.2.2, hslots, hprops⟩
    · simp only [addAdjustmentClip, hidx, hget]
      exact list_mem_set_self _ _ _ hlt
    · exact beq_iff_eq.mp hp
    · exact List.mem_append_right _ (List.mem_singleton_self _)

/-! ## C6: group move atomicity -/

/-- C6: updating a grouped member's start either shifts every member clip by
the identical delta or returns the prior state completely unchanged: the move
goes through exactly when no member's shifted start is negative and no shifted
member overlaps any non-member clip on its own track. -/
theorem updateClip_group_atomicity (mag : Bool) (trackId clipId : Nat) (ns : ℚ)
    (u : ClipUpdate) (s : EditorState) (g : Group) (tr : Track) (clip : Clip)
    (hg : s.groups.find? (fun gr => gr.clipIds.contains clipId) = some g)
    (htr : s.tracks.find? (fun t => t.id == trackId) = some tr)
    (hc : tr.clips.find? (fun c => c.id == clipId) = some clip)
    (hstart : u.start = some ns)
    (hne : clip.start ≠ ns) :
    (groupMoveValid s.tracks g.clipIds (ns - clip.start) = true →
      updateClip mag trackId clipId u s =
        { s with tracks := shiftGroupClips s.tracks g.clipIds (ns - clip.start) }) ∧
    (groupMoveValid s.tracks g.clipIds (ns - clip.start) = false →
      updateClip mag trackId clipId u s = s) ∧
    (groupMoveValid s.tracks g.clipIds (ns - clip.start) = true ↔
      ∀ gi ∈ g.clipIds.filterMap (findClipTrack s.tracks),
        0 ≤ gi.1.start + (ns - clip.start) ∧
        ∀ oc ∈ (trackClipsById s.tracks gi.2).filter (fun c => !g.clipIds.contains c.id),
          ¬(gi.1.start + (ns - clip.start) < oc.start + oc.duration ∧
            oc.start < gi.1.start + (ns - clip.start) + gi.1.duration)) := by
  have hred : updateClip mag trackId clipId u s =
      (if groupMoveValid s.tracks g.clipIds (ns - clip.start) then
        { s with tracks := shiftGroupClips s.tracks g.clipIds (ns - clip.start) }
      else s) := by
    simp only [updateClip, htr, hc, hg, hstart]
    rw [if_neg hne]
  refine ⟨fun hv => by rw [hred, if_pos hv], fun hv => by rw [hred]; simp [hv], ?_⟩
  simp only [groupMoveValid, List.all_eq_true, Bool.and_eq_true, decide_eq_true_eq]
  constructor
  · intro h gi hgi
    obtain ⟨h1, h2⟩ := h gi hgi
    refine ⟨h1, fun oc hoc => ?_⟩
    have h3 := h2 oc hoc
    simp only [Bool.not_eq_true', Bool.and_eq_false_iff, decide_eq_false_iff_not] at h3
    rcases h3 with h3 | h3
    · exact fun hcontra => h3 hcontra.1
    · exact fun hcontra => h3 hcontra.2
  · intro h gi hgi
    obtain ⟨h1, h2⟩ := h gi hgi
    refine ⟨h1, fun oc hoc => ?_⟩
    have h3 := h2 oc hoc
    simp only [Bool.not_eq_true', Bool.and_eq_false_iff, decide_eq_false_iff_not]
    by_cases hA : gi.1.start + (ns - clip.start) < oc.start + oc.duration
    · right; intro hB; exact h3 ⟨hA, hB⟩
    · left; exact hA

/-- First grouped clip of the C6 witness state: `[0,2)`. -/
def groupMoveClip : Clip := { id := 1, name := "a", start := 0, duration := 2, type := .video }

/-- Group of the C6 witness state. -/
def groupMoveGroup : Group := { id := 9, clipIds := [1, 2] }

/-- Track of the C6 witness state: grouped clips 1 `[0,2)` and 2 `[3,4)`,
non-member clip 3 at `[6,8)`. -/
def groupMoveTrack : Track :=
  { id := 1, name := "v",
    clips := [groupMoveClip,
              { id := 2, name := "b", start := 3, duration := 1, type := .video },
              { id := 3, name := "c", start := 6, duration := 2, type := .video }],
    type := .video }

/-- Concrete state for the C6 witness. -/
def groupMoveState : EditorState :=
  { tracks := [groupMoveTrack], selectedClipIds := [], groups := [groupMoveGroup] }

unseal Rat.add Rat.sub in
/-- Witness for C6: moving grouped clip 1 to start 1 (delta +1) on the
concrete state satisfies the branch hypotheses, and the theorem's trichotomy
applies there. -/
theorem updateClip_group_atomicity_witness :
    (groupMoveState.groups.find? (fun gr => gr.clipIds.contains 1) = some groupMoveGroup ∧
      groupMoveState.tracks.find? (fun t => t.id == 1) = some groupMoveTrack ∧
      groupMoveTrack.clips.find? (fun c => c.id == 1) = some groupMoveClip ∧
      ({ start := some 1 } : ClipUpdate).start = some 1 ∧
      groupMoveClip.start ≠ 1) ∧
    ((groupMoveValid groupMoveState.tracks groupMoveGroup.clipIds
        (1 - groupMoveClip.start) = true →
      updateClip false 1 1 { start := some 1 } groupMoveState =
        { groupMoveState with
            tracks := shiftGroupClips groupMoveState.tracks groupMoveGroup.clipIds
              (1 - groupMoveClip.start) }) ∧
    (groupMoveValid groupMoveState.tracks groupMoveGroup.clipIds
        (1 - groupMoveClip.start) = false →
      updateClip false 1 1 { start := some 1 } groupMoveState = groupMoveState) ∧
    (groupMoveValid groupMoveState.tracks groupMoveGroup.clipIds
        (1 - groupMoveClip.start) = true ↔
      ∀ gi ∈ groupMoveGroup.clipIds.filterMap (findClipTrack groupMoveState.tracks),
        0 ≤ gi.1.start + (1 - groupMoveClip.start) ∧
        ∀ oc ∈ (trackClipsById groupMoveState.tracks gi.2).filter
            (fun c => !groupMoveGroup.clipIds.contains c.id),
          ¬(gi.1.start + (1 - groupMoveClip.start) < oc.start + oc.duration ∧
            oc.start < gi.1.start + (1 - groupMoveClip.start) + gi.1.duration))) :=
  ⟨⟨by decide, by decide, by decide, rfl, by decide⟩,
    updateClip_group_atomicity false 1 1 1 { start := some 1 } groupMoveState
      groupMoveGroup groupMoveTrack groupMoveClip
      (by decide) (by decide) (by decide) rfl (by decide)⟩

/-! ## C3: group member invariant -/

/-- The group invariant claimed in the spec: every group holds at least 2
member ids, each referring to a clip present on some track. -/
def groupsWellFormed (s : EditorState) : Prop :=
  ∀ g ∈ s.groups, 2 ≤ g.clipIds.length ∧
    ∀ cid ∈ g.clipIds, ∃ t ∈ s.tracks, ∃ c ∈ t.clips, c.id = cid

instance groupsWellFormedDecidable (s : EditorState) :
    Decidable (groupsWellFormed s) := by
  unfold groupsWellFormed
  infer_instance

theorem list_map_id_of_mem {α : Type} (f : α → α) (l : List α)
    (h : ∀ a ∈ l, f a = a) : l.map f = l := by
  induction l with
  | nil => rfl
  | cons a as ih =>
    simp only [List.map_cons, h a (List.mem_cons_self _ _),
      ih (fun b hb => h b (List.mem_cons_of_mem _ hb))]

/-- Concrete state for the C3 counterexample: clips 1 (referencing asset 7)
and 2 on one track, grouped together. -/
def assetDeleteState : EditorState :=
  { tracks := [{ id := 1, name := "v",
                 clips := [{ id := 1, name := "a", start := 0, duration := 2,
                             type := .video, assetId := some 7 },
                           { id := 2, name := "b", start := 2, duration := 2,
                             type := .video }],
                 type := .video }],
    selectedClipIds := [], groups := [{ id := 5, clipIds := [1, 2] }] }

/-- C3 counterexample: deleting media asset 7 removes clip 1 from the track
but leaves the group `[1, 2]` untouched — `handleDeleteMediaAsset` never
re-filters `groups` — so afterwards a group member references a clip that no
longer exists (and only one member survives), falsifying the claimed
invariant for the asset-deletion operation. -/
theorem deleteMediaAsset_breaks_group_invariant :
    groupsWellFormed assetDeleteState ∧
      ¬ groupsWellFormed (deleteMediaAssetClips 7 assetDeleteState) := by
  constructor
  · decide
  · decide

/-- C3 (amended): `deleteClips` (delete-selected) preserves the group
invariant: it re-filters every group's `clipIds` and drops groups left with
fewer than 2 surviving members, and every surviving member still refers to a
clip on some track. (Deleting a media asset, by contrast, does not re-filter
groups — see the counterexample.) -/
theorem deleteSelected_preserves_groups (mag : Bool) (s : EditorState)
    (hwf : groupsWellFormed s) : groupsWellFormed (deleteSelectedClips mag s) := by
  by_cases hempty : s.selectedClipIds.isEmpty
  · simp only [deleteSelectedClips, if_pos hempty]; exact hwf
  · have hdel : deleteSelectedClips mag s =
        { tracks :=
            if mag then
              (s.tracks.map fun t =>
                { t with clips :=
                    t.clips.filter (fun c => !s.selectedClipIds.contains c.id) }).map
                fun t =>
                  if (deletedTrackIdsOf s).contains t.id then
                    { t with clips := rippleFrom 0 (sortByStart
                        (t.clips.filter (fun c => !s.selectedClipIds.contains c.id))) }
                  else t
            else
              s.tracks.map fun t =>
                { t with clips :=
                    t.clips.filter (fun c => !s.selectedClipIds.contains c.id) },
          selectedClipIds := [],
          groups := (s.groups.map fun g =>
              { g with clipIds :=
                  g.clipIds.filter (fun cid => !s.selectedClipIds.contains cid) }).filter
              (fun g => 1 < g.clipIds.length) } := by
      simp only [deleteSelectedClips, if_neg hempty]
    rw [hdel]
    intro g hg
    simp only [List.mem_filter, List.mem_map, decide_eq_true_eq] at hg
    obtain ⟨⟨g0, hg0, rfl⟩, hlen⟩ := hg
    refine ⟨by simpa using Nat.succ_le_of_lt hlen, ?_⟩
    intro cid hcid
    rcases List.mem_filter.mp hcid with ⟨hcid0, hnotsel⟩
    obtain ⟨-, hex⟩ := hwf g0 hg0
    obtain ⟨t, ht, c, hc, hcid_eq⟩ := hex cid hcid0
    have hkeep : (!s.selectedClipIds.contains c.id) = true := by
      rw [hcid_eq]; exact hnotsel
    cases mag with
    | false =>
      simp only [Bool.false_eq_true, if_false]
      exact ⟨{ t with clips := t.clips.filter (fun c => !s.selectedClipIds.contains c.id) },
        List.mem_map_of_mem _ ht, c, List.mem_filter.mpr ⟨hc, hkeep⟩, hcid_eq⟩
    | true =>
      simp only [if_true]
      by_cases haff : ((deletedTrackIdsOf s).contains t.id) = true
      · refine ⟨_, List.mem_map.mpr
          ⟨{ t with clips := t.clips.filter (fun c => !s.selectedClipIds.contains c.id) },
            List.mem_map_of_mem _ ht, rfl⟩, ?_⟩
        dsimp only
        rw [if_pos haff]
        have hcf : c ∈ (t.clips.filter
            (fun c => !s.selectedClipIds.contains c.id)).filter
            (fun c => !s.selectedClipIds.contains c.id) :=
          List.mem_filter.mpr ⟨List.mem_filter.mpr ⟨hc, hkeep⟩, hkeep⟩
        obtain ⟨c', hc', hcid'⟩ :=
          exists_id_mem_rippleFrom _ c 0 ((mem_sortByStart _ _).mpr hcf)
        exact ⟨c', hc', hcid'.trans hcid_eq⟩
      · refine ⟨_, List.mem_map.mpr
          ⟨{ t with clips := t.clips.filter (fun c => !s.selectedClipIds.contains c.id) },
            List.mem_map_of_mem _ ht, rfl⟩, ?_⟩
        dsimp only
        rw [if_neg haff]
        exact ⟨c, List.mem_filter.mpr ⟨hc, hkeep⟩, hcid_eq⟩

/-- Concrete state for the C3 witness: clips 1 and 2 grouped, clip 1
selected for deletion. -/
def deleteGroupsState : EditorState :=
  { tracks := [{ id := 1, name := "v",
                 clips := [{ id := 1, name := "a", start := 0, duration := 2,
                             type := .video },
                           { id := 2, name := "b", start := 2, duration := 2,
                             type := .video }],
                 type := .video }],
    selectedClipIds := [1], groups := [{ id := 5, clipIds := [1, 2] }] }

/-- Witness for C3 (amended): the concrete grouped state is well formed, and
after deleting the selected member the group invariant still holds (the
1-member group is dropped). -/
theorem deleteSelected_preserves_groups_witness :
    groupsWellFormed deleteGroupsState ∧
      groupsWellFormed (deleteSelectedClips true deleteGroupsState) :=
  ⟨by decide, deleteSelected_preserves_groups true deleteGroupsState (by decide)⟩

/-! ## C5: splitClip -/

theorem scanSplitTarget_eq_none (tracks : List Track) (time : ℚ)
    (h : ∀ tr ∈ tracks, tr.isLocked = false →
      ∀ c ∈ tr.clips, ¬(c.start < time ∧ time < c.start + c.duration)) :
    scanSplitTarget tracks time = none := by
  induction tracks with
  | nil => rfl
  | cons tr rest ih =>
    have ihrest := ih (fun t ht hl c hc => h t (List.mem_cons_of_mem _ ht) hl c hc)
    simp only [scanSplitTarget]
    by_cases hl : tr.isLocked
    · rw [if_pos hl]; exact ihrest
    · rw [if_neg hl]
      have hfind : tr.clips.find? (fun c => strictlyContainsB c time) = none := by
        rw [List.find?_eq_none]
        intro c hc
        have := h tr (List.mem_cons_self _ _) (Bool.not_eq_true _ ▸ eq_false_of_ne_true hl) c hc
        simp only [strictlyContainsB, Bool.and_eq_true, decide_eq_true_eq]
        exact fun hcontra => this hcontra
      rw [hfind]
      exact ihrest

/-- C5 (amended): when `splitClip`'s target search finds a clip — the single
selected clip when the time is strictly inside it (its track's lock is not
checked), else the first strictly-containing clip on an unlocked track — the
clip is replaced in place by exactly two clips: the first keeps the original
id and gets duration `time - start`, the second gets the fresh id, start
`time`, the remaining duration, and `trimStart` advanced by the split offset,
so the durations sum to the original and the trim ranges are contiguous; the
selection becomes the first half. When the time is not strictly inside the
single selected clip and no clip on an unlocked track strictly contains the
time, the state is returned unchanged. -/
theorem splitClip_spec :
    (∀ (s : EditorState) (time : ℚ) (newId : Nat) (tpre : List Track) (tr : Track)
       (tpost : List Track) (cpre : List Clip) (clip : Clip) (cpost : List Clip),
      findClipToSplit s time = some (tr.id, clip) →
      s.tracks = tpre ++ tr :: tpost →
      (∀ t ∈ tpre, t.id ≠ tr.id) →
      (∀ t ∈ tpost, t.id ≠ tr.id) →
      tr.clips = cpre ++ clip :: cpost →
      (∀ c ∈ cpre, c.id ≠ clip.id) →
      splitClip time newId s =
        { s with
            tracks := tpre ++
              { tr with clips := cpre ++
                  { clip with duration := time - clip.start } ::
                  { clip with
                    id := newId, start := time,
                    duration := clip.duration - (time - clip.start),
                    trimStart := some (clip.trimStart.getD 0 + (time - clip.start)) } ::
                  cpost } :: tpost,
            selectedClipIds := [clip.id] } ∧
        (time - clip.start) + (clip.duration - (time - clip.start)) = clip.duration ∧
        clip.trimStart.getD 0 + (time - clip.start) =
          ({ clip with duration := time - clip.start } : Clip).trimStart.getD 0 +
            ({ clip with duration := time - clip.start } : Clip).duration) ∧
    (∀ (s : EditorState) (time : ℚ) (newId : Nat),
      (∀ cid tr c, s.selectedClipIds = [cid] →
        s.tracks.find? (fun t => t.clips.any (fun c => c.id == cid)) = some tr →
        tr.clips.find? (fun c => c.id == cid) = some c →
        ¬(c.start < time ∧ time < c.start + c.duration)) →
      (∀ tr ∈ s.tracks, tr.isLocked = false →
        ∀ c ∈ tr.clips, ¬(c.start < time ∧ time < c.start + c.duration)) →
      splitClip time newId s = s) := by
  constructor
  · intro s time newId tpre tr tpost cpre clip cpost hfind htracks hpre hpost hclips hcpre
    refine ⟨?_, by ring, rfl⟩
    simp only [splitClip, hfind]
    congr 1
    rw [htracks, List.map_append, List.map_cons]
    have hmappre : tpre.map (fun tr' =>
        if tr'.id == tr.id then
          match tr'.clips.findIdx? (fun c => c.id == clip.id) with
          | none => tr'
          | some i =>
            { tr' with clips := tr'.clips.take i ++
                { clip with duration := time - clip.start } ::
                { clip with
                  id := newId, start := time,
                  duration := clip.duration - (time - clip.start),
                  trimStart := some (clip.trimStart.getD 0 + (time - clip.start)) } ::
                tr'.clips.drop (i + 1) }
        else tr') = tpre := by
      apply list_map_id_of_mem
      intro t htm
      rw [if_neg (by simpa using hpre t htm)]
    have hmappost : tpost.map (fun tr' =>
        if tr'.id == tr.id then
          match tr'.clips.findIdx? (fun c => c.id == clip.id) with
          | none => tr'
          | some i =>
            { tr' with clips := tr'.clips.take i ++
                { clip with duration := time - clip.start } ::
                { clip with
                  id := newId, start := time,
                  duration := clip.duration - (time - clip.start),
                  trimStart := some (clip.trimStart.getD 0 + (time - clip.start)) } ::
                tr'.clips.drop (i + 1) }
        else tr') = tpost := by
      apply list_map_id_of_mem
      intro t htm
      rw [if_neg (by simpa using hpost t htm)]
    rw [hmappre, hmappost]
    congr 1
    rw [if_pos (by simp)]
    have hidx : tr.clips.findIdx? (fun c => c.id == clip.id) = some cpre.length := by
      rw [hclips]
      exact list_findIdx?_append_cons _ _ _ _
        (fun c hcm => by simpa using hcpre c hcm) (by simp)
    rw [hidx]
    simp only [hclips, list_take_append_cons, list_drop_append_cons]
  · intro s time newId hsel hscan
    have hselnone : selectedSplitTarget s time = none := by
      unfold selectedSplitTarget
      split
      · rename_i cid heq
        split
        · rename_i tr hft
          split
          · rename_i c hfc
            have hnc := hsel cid tr c heq hft hfc
            have hfalse : ¬ (strictlyContainsB c time = true) := by
              simp only [strictlyContainsB, Bool.and_eq_true, decide_eq_true_eq]
              exact fun hco => hnc hco
            rw [if_neg hfalse]
          · rfl
        · rfl
      · rfl
    have hfind : findClipToSplit s time = none := by
      simp only [findClipToSplit, hselnone]
      exact scanSplitTarget_eq_none s.tracks time hscan
    simp only [splitClip, hfind]

/-- Concrete state for the C5 counterexample: a fully locked track holding the
single selected clip `[0,10)`. -/
def lockedSplitState : EditorState :=
  { tracks := [{ id := 1, name := "v",
                 clips := [{ id := 1, name := "a", start := 0, duration := 10,
                             type := .video }],
                 type := .video, isLocked := true }],
    selectedClipIds := [1], groups := [] }

unseal Rat.add Rat.sub in
/-- C5 counterexample: every track of the state is locked, so no clip on an
unlocked track strictly contains time 4 — by the claim the split should be a
no-op — yet `splitClip` splits the selected clip anyway, because the
selected-clip branch never checks `isLocked`: the state changes. -/
theorem splitClip_locked_selected_counterexample :
    (∀ tr ∈ lockedSplitState.tracks, tr.isLocked = true) ∧
      splitClip 4 99 lockedSplitState ≠ lockedSplitState := by
  constructor
  · decide
  · decide

/-- Concrete state for the C5 witness: one unlocked track with clip `[0,10)`
(trimStart 2), nothing selected. -/
def splitWitnessState : EditorState :=
  { tracks := [{ id := 1, name := "v",
                 clips := [{ id := 1, name := "a", start := 0, duration := 10,
                             type := .video, trimStart := some 2 }],
                 type := .video }],
    selectedClipIds := [], groups := [] }

/-- The clip split by the C5 witness. -/
def splitWitnessClip : Clip :=
  { id := 1, name := "a", start := 0, duration := 10, type := .video,
    trimStart := some 2 }

/-- The track split by the C5 witness. -/
def splitWitnessTrack : Track :=
  { id := 1, name := "v", clips := [splitWitnessClip], type := .video }

unseal Rat.add Rat.sub in
/-- Witness for C5: splitting the `[0,10)` clip at time 4 replaces it by
`[0,4)` (original id) and `[4,10)` (fresh id 99, trimStart 2 + 4), selecting
the first half. -/
theorem splitClip_spec_witness :
    (findClipToSplit splitWitnessState 4 = some (splitWitnessTrack.id, splitWitnessClip) ∧
      splitWitnessState.tracks = [] ++ splitWitnessTrack :: [] ∧
      splitWitnessTrack.clips = [] ++ splitWitnessClip :: []) ∧
    (splitClip 4 99 splitWitnessState =
      { splitWitnessState with
          tracks := [] ++
            { splitWitnessTrack with clips := [] ++
                { splitWitnessClip with duration := 4 - splitWitnessClip.start } ::
                { splitWitnessClip with
                  id := 99, start := 4,
                  duration := splitWitnessClip.duration - (4 - splitWitnessClip.start),
                  trimStart := some (splitWitnessClip.trimStart.getD 0 +
                    (4 - splitWitnessClip.start)) } ::
                [] } :: [],
          selectedClipIds := [splitWitnessClip.id] } ∧
      (4 - splitWitnessClip.start) +
        (splitWitnessClip.duration - (4 - splitWitnessClip.start)) =
        splitWitnessClip.duration ∧
      splitWitnessClip.trimStart.getD 0 + (4 - splitWitnessClip.start) =
        ({ splitWitnessClip with duration := 4 - splitWitnessClip.start } : Clip).trimStart.getD 0 +
          ({ splitWitnessClip with duration := 4 - splitWitnessClip.start } : Clip).duration) :=
  ⟨⟨by decide, by decide, by decide⟩,
    splitClip_spec.1 splitWitnessState 4 99 [] splitWitnessTrack [] [] splitWitnessClip []
      (by decide) (by decide) (by intro t ht; cases ht) (by intro t ht; cases ht)
      (by decide) (by intro c hc; cases hc)⟩

/-! ## C2: magnetic contiguity -/

/-- Clip of the C2 counterexample's one-clip track: `[0,2)`. -/
def gapClip : Clip := { id := 1, name := "a", start := 0, duration := 2, type := .video }

/-- C2 counterexample state: a magnetic video track holding only `[0,2)`. -/
def gapState : EditorState :=
  { tracks := [{ id := 1, name := "v", clips := [gapClip], type := .video }],
    selectedClipIds := [], groups := [] }

/-- Asset added in the C2 counterexample (video, 2 seconds). -/
def gapAsset : MediaAsset := { id := 100, name := "m", duration := 2, type := .video }

unseal Rat.add in
/-- C2 counterexample: the track `[0,2)` is contiguous, but a magnetic
`addClip` at requested start 5 places the new clip at 5 without pulling it
back or rippling anything (the insertion-time rule only reacts to clips
starting exactly at the requested start), leaving `[0,2), [5,7)` — the sorted
clips violate `clip[i+1].start = clip[i].start + clip[i].duration`. -/
theorem magnetic_add_gap_counterexample :
    contiguousB (sortByStart [gapClip]) = true ∧
      ((addClip true (some 1) gapAsset 5 none 2 90 gapState).tracks.map
        (fun t => contiguousB (sortByStart t.clips))) = [false] := by
  constructor
  · decide
  · decide

/-- C2 (amended): with the magnetic flag on — (a) after `deleteClips`, every
track that held a deleted clip is re-packed back to back from time 0;
(b) after the magnetic `addClip` placement, the inserted clip sits exactly at
the computed insertion time, the rippled clips follow it back to back, and
every clip left in place ends at or before the insertion time — but a gap may
remain before the inserted clip; (c) after a magnetic resize via `updateClip`,
the edited clip and all later clips (in start order) sit back to back while
the earlier clips keep their positions — full track-wide contiguity is not
restored by add or resize. -/
theorem magnetic_contiguity_amended :
    (∀ (s : EditorState) (t : Track),
      s.selectedClipIds.isEmpty = false →
      t ∈ (deleteSelectedClips true s).tracks →
      (deletedTrackIdsOf s).contains t.id = true →
      chainFromB 0 t.clips = true ∧ contiguousB t.clips = true) ∧
    (∀ (clips : List Clip) (newClip : Clip),
      ∃ rippled,
        magneticInsertClips clips newClip =
          clips.filter
            (fun c => decide (c.start + c.duration ≤ insertionTimeFor clips newClip.start)) ++
            { newClip with start := insertionTimeFor clips newClip.start } :: rippled ∧
        chainFromB (insertionTimeFor clips newClip.start)
          ({ newClip with start := insertionTimeFor clips newClip.start } :: rippled) = true ∧
        ∀ c ∈ clips.filter
            (fun c => decide (c.start + c.duration ≤ insertionTimeFor clips newClip.start)),
          c.start + c.duration ≤ insertionTimeFor clips newClip.start) ∧
    (∀ (clips : List Clip) (clipId : Nat) (u : ClipUpdate) (i : Nat) (c0 : Clip),
      (sortByStart clips).findIdx? (fun c => c.id == clipId) = some i →
      (sortByStart clips)[i]? = some c0 →
      magneticResize clips clipId u =
        (sortByStart clips).take i ++ mergeClip c0 u ::
          rippleFrom ((mergeClip c0 u).start + (mergeClip c0 u).duration)
            (((sortByStart clips).set i (mergeClip c0 u)).drop (i + 1)) ∧
      chainFromB (mergeClip c0 u).start
        (mergeClip c0 u ::
          rippleFrom ((mergeClip c0 u).start + (mergeClip c0 u).duration)
            (((sortByStart clips).set i (mergeClip c0 u)).drop (i + 1))) = true) := by
  refine ⟨?_, ?_, ?_⟩
  · intro s t hne hmem hcont
    simp only [deleteSelectedClips, hne, Bool.false_eq_true, if_false, if_true] at hmem
    obtain ⟨t1, ht1, rfl⟩ := List.mem_map.mp hmem
    by_cases haff : (deletedTrackIdsOf s).contains t1.id = true
    · rw [if_pos haff]
      refine ⟨chainFromB_rippleFrom _ _, contiguousB_of_chainFromB _ 0 (chainFromB_rippleFrom _ _)⟩
    · rw [if_neg haff] at hcont ⊢
      exact absurd hcont haff
  · intro clips newClip
    refine ⟨_, rfl, ?_, ?_⟩
    · simp [chainFromB, chainFromB_rippleFrom]
    · intro c hc
      simpa using (List.mem_filter.mp hc).2
  · intro clips clipId u i c0 hfidx hget
    have hlt : i < (sortByStart clips).length := (List.getElem?_eq_some_iff.mp hget).1
    constructor
    · simp only [magneticResize, hfidx, hget]
      rw [list_take_set_succ _ _ _ hlt, List.append_assoc, List.singleton_append]
    · simp [chainFromB, chainFromB_rippleFrom]

/-- C2 witness state for the delete part: magnetic track `[0,2), [2,5), [5,9)`
with the middle clip selected. -/
def delMidState : EditorState :=
  { tracks := [{ id := 1, name := "v",
                 clips := [{ id := 1, name := "a", start := 0, duration := 2, type := .video },
                           { id := 2, name := "b", start := 2, duration := 3, type := .video },
                           { id := 3, name := "c", start := 5, duration := 4, type := .video }],
                 type := .video }],
    selectedClipIds := [2], groups := [] }

/-- The clips resized in the C2 witness: `[0,2), [2,5)`. -/
def resizeClips : List Clip :=
  [{ id := 1, name := "a", start := 0, duration := 2, type := .video },
   { id := 2, name := "b", start := 2, duration := 3, type := .video }]

/-- The clip added in the C2 witness. -/
def insertedClip : Clip :=
  { id := 2, name := "m", start := 5, duration := 2, type := .video }

unseal Rat.add Rat.sub in
/-- Witness for C2 (amended), instantiating all three parts: deleting the
middle clip of `[0,2),[2,5),[5,9)` re-packs the track to `[0,2),[2,6)` from 0;
a magnetic insert into `[0,2)` at start 5 has the stated shape; resizing the
first clip of `[0,2),[2,5)` to duration 5 leaves the edited clip and its
successor back to back. -/
theorem magnetic_contiguity_amended_witness :
    (delMidState.selectedClipIds.isEmpty = false ∧
      ({ id := 1, name := "v",
         clips := [{ id := 1, name := "a", start := 0, duration := 2, type := .video },
                   { id := 3, name := "c", start := 2, duration := 4, type := .video }],
         type := .video } : Track) ∈ (deleteSelectedClips true delMidState).tracks ∧
      (deletedTrackIdsOf delMidState).contains 1 = true ∧
      (chainFromB 0
          ({ id := 1, name := "v",
             clips := [{ id := 1, name := "a", start := 0, duration := 2, type := .video },
                       { id := 3, name := "c", start := 2, duration := 4, type := .video }],
             type := .video } : Track).clips = true ∧
        contiguousB
          ({ id := 1, name := "v",
             clips := [{ id := 1, name := "a", start := 0, duration := 2, type := .video },
                       { id := 3, name := "c", start := 2, duration := 4, type := .video }],
             type := .video } : Track).clips = true)) ∧
    (∃ rippled,
      magneticInsertClips [gapClip] insertedClip =
        [gapClip].filter
          (fun c => decide (c.start + c.duration ≤ insertionTimeFor [gapClip] insertedClip.start)) ++
          { insertedClip with start := insertionTimeFor [gapClip] insertedClip.start } :: rippled ∧
      chainFromB (insertionTimeFor [gapClip] insertedClip.start)
        ({ insertedClip with start := insertionTimeFor [gapClip] insertedClip.start } :: rippled) = true ∧
      ∀ c ∈ [gapClip].filter
          (fun c => decide (c.start + c.duration ≤ insertionTimeFor [gapClip] insertedClip.start)),
        c.start + c.duration ≤ insertionTimeFor [gapClip] insertedClip.start) ∧
    ((sortByStart resizeClips).findIdx? (fun c => c.id == 1) = some 0 ∧
      (sortByStart resizeClips)[0]? =
        some { id := 1, name := "a", start := 0, duration := 2, type := .video } ∧
      (magneticResize resizeClips 1 { duration := some 5 } =
        (sortByStart resizeClips).take 0 ++
          mergeClip { id := 1, name := "a", start := 0, duration := 2, type := .video }
              { duration := some 5 } ::
            rippleFrom
              ((mergeClip { id := 1, name := "a", start := 0, duration := 2, type := .video }
                  { duration := some 5 }).start +
                (mergeClip { id := 1, name := "a", start := 0, duration := 2, type := .video }
                  { duration := some 5 }).duration)
              (((sortByStart resizeClips).set 0
                  (mergeClip { id := 1, name := "a", start := 0, duration := 2, type := .video }
                    { duration := some 5 })).drop 1) ∧
      chainFromB
        (mergeClip { id := 1, name := "a", start := 0, duration := 2, type := .video }
            { duration := some 5 }).start
        (mergeClip { id := 1, name := "a", start := 0, duration := 2, type := .video }
            { duration := some 5 } ::
          rippleFrom
            ((mergeClip { id := 1, name := "a", start := 0, duration := 2, type := .video }
                { duration := some 5 }).start +
              (mergeClip { id := 1, name := "a", start := 0, duration := 2, type := .video }
                { duration := some 5 }).duration)
            (((sortByStart resizeClips).set 0
                (mergeClip { id := 1, name := "a", start := 0, duration := 2, type := .video }
                  { duration := some 5 })).drop 1)) = true)) :=
  ⟨⟨by decide, by decide, by decide,
      magnetic_contiguity_amended.1 delMidState
        { id := 1, name := "v",
          clips := [{ id := 1, name := "a", start := 0, duration := 2, type := .video },
                    { id := 3, name := "c", start := 2, duration := 4, type := .video }],
          type := .video }
        (by decide) (by decide) (by decide)⟩,
    magnetic_contiguity_amended.2.1 [gapClip] insertedClip,
    by decide, by decide,
    magnetic_contiguity_amended.2.2 resizeClips 1 { duration := some 5 } 0
      { id := 1, name := "a", start := 0, duration := 2, type := .video }
      (by decide) (by decide)⟩

end AiEditor
